import Mathlib

set_option maxHeartbeats 1000000

namespace Pch2Csd

/-! Shallow embedding of src/pch2csd/csdgen.py.

Python strings are Lean strings manipulated through explicit
character-list helpers with Python semantics; Python exceptions become an
explicit error type threaded through Except; Python dicts become
association lists with insert-or-overwrite semantics that preserve
insertion order, matching CPython dict ordering. -/

/-- Python exception kinds raised by the translated code. -/
inductive Err where
  | valueError
  | keyError
  | indexError
  | notImplementedError
  deriving DecidableEq

def liftO {α : Type} (e : Err) : Option α → Except Err α
  | some a => .ok a
  | none => .error e

/-- Python enumerate. -/
def enumFrom {α : Type} : Nat → List α → List (Nat × α)
  | _, [] => []
  | i, a :: as => (i, a) :: enumFrom (i + 1) as

/-- Python dict indexing by key (first matching entry). -/
def dictLookup {κ α : Type} [DecidableEq κ] : List (κ × α) → κ → Option α
  | [], _ => none
  | (k0, v0) :: rest, k => if k0 = k then some v0 else dictLookup rest k

/-- Python dict assignment: overwrite in place, or append a new entry. -/
def dictInsert {κ α : Type} [DecidableEq κ] : List (κ × α) → κ → α → List (κ × α)
  | [], k, v => [(k, v)]
  | (k0, v0) :: rest, k, v =>
    if k0 = k then (k, v) :: rest else (k0, v0) :: dictInsert rest k v

/-- Whitespace characters stripped by Python str.strip. -/
def pyIsSpace (c : Char) : Bool :=
  c = ' ' || c = '\t' || c = '\n' || c = '\r' || c = '\x0b' || c = '\x0c'

/-- Python str.strip. -/
def pyStrip (s : String) : String :=
  ⟨((s.data.dropWhile pyIsSpace).reverse.dropWhile pyIsSpace).reverse⟩

def listStartsWith {α : Type} [DecidableEq α] : List α → List α → Bool
  | _, [] => true
  | [], _ :: _ => false
  | a :: as, b :: bs => if a = b then listStartsWith as bs else false

/-- Python str.startswith. -/
def pyStartswith (s pre : String) : Bool :=
  listStartsWith s.data pre.data

def replaceAux {α : Type} [DecidableEq α] (pat rep : List α) : Nat → List α → List α
  | _, [] => []
  | 0, l => l
  | fuel + 1, a :: as =>
    if pat ≠ [] ∧ listStartsWith (a :: as) pat = true then
      rep ++ replaceAux pat rep fuel (List.drop (pat.length - 1) as)
    else
      a :: replaceAux pat rep fuel as

/-- Python str.replace (all occurrences, left to right). -/
def pyReplace (s pat rep : String) : String :=
  ⟨replaceAux pat.data rep.data s.data.length s.data⟩

def splitAux {α : Type} [DecidableEq α] (sep : List α) :
    Nat → List α → List α → List (List α)
  | _, acc, [] => [acc.reverse]
  | 0, acc, l => [acc.reverse ++ l]
  | fuel + 1, acc, a :: as =>
    if sep ≠ [] ∧ listStartsWith (a :: as) sep = true then
      acc.reverse :: splitAux sep fuel [] (List.drop (sep.length - 1) as)
    else
      splitAux sep fuel (a :: acc) as

/-- Python str.split with an explicit nonempty separator (keeps empty fields). -/
def pySplit (s sep : String) : List String :=
  (splitAux sep.data s.data.length [] s.data).map (fun l => ⟨l⟩)

/-- Python str.join over a list. -/
def joinWith (sep : String) : List String → String
  | [] => ""
  | [s] => s
  | s :: s' :: rest => s ++ sep ++ joinWith sep (s' :: rest)

def pyDigits : List Char → Nat → Option Nat
  | [], acc => some acc
  | c :: cs, acc =>
    if '0' ≤ c ∧ c ≤ '9' then pyDigits cs (acc * 10 + (c.toNat - '0'.toNat))
    else none

/-- Python int(str) on a decimal literal. -/
def pyInt (s : String) : Option Int :=
  match (pyStrip s).data with
  | [] => none
  | '-' :: cs => if cs = [] then none else (pyDigits cs 0).map (fun n => -(n : Int))
  | cs => (pyDigits cs 0).map (fun n => (n : Int))

/-- Modelled from the spec: cables carry a rate/color tag (the CableColor
enumeration lives in the external patch model, pch2csd/patch.py, which is
not part of the translated source); only the control/audio distinction is
observable through to_cs_rate_char. -/
inductive CableColor where
  | control
  | audio
  deriving DecidableEq

/-- Modelled from the spec: the color-to-rate-character mapping of the
external patch model: control-rate cables map to the rate character k,
audio-rate cables to a. -/
def CableColor.to_cs_rate_char : CableColor → Char
  | .control => 'k'
  | .audio => 'a'

/-- A patch cable edge, as consumed by csdgen.py. -/
structure Cable where
  location : Nat
  color : CableColor
  module_from : Nat
  jack_from : Nat
  module_to : Nat
  jack_to : Nat
  deriving DecidableEq

/-- A patch module node, as consumed by csdgen.py. -/
structure Module where
  id : Nat
  location : Nat
  type : Nat
  type_name : String
  deriving DecidableEq

/-- Modelled from the spec: the per-module resolved parameter value list of
the external patch model. -/
structure ModParams where
  values : List Nat
  deriving DecidableEq

/-- Modelled from the spec: num_params of the external parameter record is
the module's actual parameter count, the length of its value list. -/
def ModParams.num_params (m : ModParams) : Nat := m.values.length

/-- The already-parsed patch graph (external collaborator data). -/
structure Patch where
  modules : List Module
  cables : List Cable
  find_mod_params : Nat → Nat → ModParams
  value_maps : List (String × List Int)

/-- Modelled from the spec: Patch.find_all_incoming_cables of the external
patch model returns the cables arriving at a module, or none when the
module has no incoming cables. -/
def Patch.find_all_incoming_cables (p : Patch) (loc : Nat) (mid : Nat) :
    Option (List Cable) :=
  let cs := p.cables.filter (fun c => c.location == loc && c.module_to == mid)
  if cs.isEmpty then none else some cs

/-- UdoTemplate: per-module-type template with parsed annotation headers. -/
structure UdoTemplate where
  mod_type : Nat
  mod_type_name : String
  lines : List String
  udo_lines : List Nat
  args : List (List String)
  maps : List (List String)

/-- One iteration of the UdoTemplate._parse_headers loop. -/
def parseHeadersStep (acc : List Nat × List (List String) × List (List String))
    (il : Nat × String) : List Nat × List (List String) × List (List String) :=
  if pyStartswith il.2 ";@ args" then
    (acc.1 ++ [il.1], acc.2.1 ++ [(pySplit (pyReplace il.2 ";@ args" "") ",").map pyStrip],
     acc.2.2)
  else if pyStartswith il.2 ";@ map" then
    (acc.1, acc.2.1,
     acc.2.2 ++ [(pySplit (pyStrip (pyReplace il.2 ";@ map" "")) " ").map pyStrip])
  else acc

/-- UdoTemplate._validate_headers: at least one args annotation, each with
exactly three components (the map-count check in the source only logs). -/
def validate_headers (udo_lines : List Nat) (args : List (List String))
    (maps : List (List String)) : Bool :=
  !args.isEmpty && args.all (fun a => a.length == 3)

/-- UdoTemplate._parse_headers: collect annotation lines; on validation
failure all three lists come back empty. -/
def parse_headers (lines : List String) :
    List Nat × List (List String) × List (List String) :=
  let r := (enumFrom 0 lines).foldl parseHeadersStep ([], [], [])
  if validate_headers r.1 r.2.1 r.2.2 then r else ([], [], [])

/-- UdoTemplate.__init__: strip every line of the template file, then parse
the annotation headers. -/
def UdoTemplate.ofLines (mod_type : Nat) (mod_type_name : String)
    (raw : List String) : UdoTemplate :=
  let lines := raw.map pyStrip
  let r := parse_headers lines
  ⟨mod_type, mod_type_name, lines, r.1, r.2.1, r.2.2⟩

/-- The cs_rates dict of Udo._choose_udo_variant: destination jack to rate
character, last cable to a jack wins, insertion order preserved. -/
def csRates (cables : List Cable) : List (Nat × Char) :=
  cables.foldl (fun d c => dictInsert d c.jack_to c.color.to_cs_rate_char) []

/-- The scanning loop of Udo._choose_udo_variant, with Python's
short-circuit evaluation of the two indexings. -/
def variantScan (v0 v1 : List Char) : List (Nat × Char) → Except Err Nat
  | [] => .ok 0
  | (i, r) :: rest =>
    match v0.get? i with
    | none => .error .indexError
    | some c0 =>
      if c0 ≠ r then
        match v1.get? i with
        | none => .error .indexError
        | some c1 => if c1 = r then .ok 1 else variantScan v0 v1 rest
      else variantScan v0 v1 rest

/-- Udo._choose_udo_variant. -/
def choose_udo_variant (tpl : UdoTemplate) (p : Patch) (mod : Module) :
    Except Err Nat :=
  match p.find_all_incoming_cables mod.location mod.id with
  | none => .ok 0
  | some cables =>
    if tpl.args.length < 2 then .ok 0
    else
      match tpl.args.get? 0 with
      | none => .error .indexError
      | some a0 =>
        match a0.get? 1 with
        | none => .error .indexError
        | some tpl_v0_ins =>
          match tpl.args.get? 1 with
          | none => .error .indexError
          | some a1 =>
            match a1.get? 1 with
            | none => .error .indexError
            | some tpl_v1_ins =>
              variantScan tpl_v0_ins.data tpl_v1_ins.data (csRates cables)

/-- ZakSpace: the two bus counters and the two key-to-bus maps. -/
structure ZakSpace where
  aloc_i : Nat
  kloc_i : Nat
  zakk : List ((Nat × Nat) × Nat)
  zaka : List ((Nat × Nat) × Nat)

def ZakSpace.zero_bus : Nat := 0

def ZakSpace.trash_bus : Nat := 1

/-- ZakSpace.__init__ / ZakSpace._init_zak. -/
def ZakSpace.init : ZakSpace := ⟨2, 2, [], []⟩

/-- ZakSpace._aloc_new: pre-increment, then return the counter. -/
def ZakSpace.aloc_new (z : ZakSpace) : ZakSpace × Nat :=
  ({ z with aloc_i := z.aloc_i + 1 }, z.aloc_i + 1)

/-- ZakSpace._kloc_new: pre-increment, then return the counter. -/
def ZakSpace.kloc_new (z : ZakSpace) : ZakSpace × Nat :=
  ({ z with kloc_i := z.kloc_i + 1 }, z.kloc_i + 1)

/-- An opcode instance: one Udo object per patch module. -/
structure Udo where
  patch : Patch
  mod : Module
  tpl : UdoTemplate
  udo_variant : Nat
  in_types : List Char
  out_types : List Char
  inlets : List Nat
  outlets : List Nat

/-- Udo.header: fail on an unparsed template, else the chosen variant's
args triple. -/
def udo_header (tpl : UdoTemplate) (udo_variant : Nat) :
    Except Err (List String) :=
  if tpl.args.isEmpty then .error .valueError
  else liftO .indexError (tpl.args.get? udo_variant)

/-- Udo.__init__: load the template, choose the variant, unpack the args
triple into rate strings, and seed the inlet and outlet slots with the
sentinel buses (inlets with trash_bus, outlets with zero_bus, exactly as
the source's _init_zak_connections does). -/
def Udo.init (tpls : Nat → List String) (p : Patch) (mod : Module) :
    Except Err Udo :=
  let tpl := UdoTemplate.ofLines mod.type mod.type_name (tpls mod.type)
  match choose_udo_variant tpl p mod with
  | .error e => .error e
  | .ok v =>
    match udo_header tpl v with
    | .error e => .error e
    | .ok hd =>
      match hd with
      | [_, ins, outs] =>
        .ok { patch := p, mod := mod, tpl := tpl, udo_variant := v,
              in_types := ins.data, out_types := outs.data,
              inlets := List.replicate ins.data.length ZakSpace.trash_bus,
              outlets := List.replicate outs.data.length ZakSpace.zero_bus }
      | _ => .error .valueError

/-- Udo.get_name: type name, suffixed with the variant when the template
declares several variants. -/
def Udo.get_name (u : Udo) : String :=
  if u.tpl.args.length < 2 then u.mod.type_name
  else u.mod.type_name ++ "_v" ++ toString u.udo_variant

/-- The body-collection loop of Udo.get_src: take lines up to and
including the endop line. -/
def takeUntilEndop : List String → List String
  | [] => []
  | l :: ls => if pyStartswith (pyStrip l) "endop" then [l] else l :: takeUntilEndop ls

def listSetHead : List String → String → List String
  | [], _ => []
  | _ :: rest, s => s :: rest

/-- Udo.get_src. -/
def Udo.get_src (u : Udo) : String :=
  if u.tpl.args.length < 2 then
    joinWith "\n" (u.tpl.lines.drop (u.tpl.udo_lines.getD 0 0 + 1))
  else
    let offset := u.tpl.udo_lines.getD u.udo_variant 0 + 1
    let udo_src := takeUntilEndop (u.tpl.lines.drop offset)
    joinWith "\n"
      (listSetHead udo_src (pyReplace (udo_src.headD "") u.mod.type_name u.get_name))

/-- Udo._map_value. -/
def Udo.map_value (u : Udo) (i : Nat) (v : Nat) (all_vals : List Nat) :
    Except Err Int :=
  match u.tpl.maps.get? i with
  | none => .error .indexError
  | some m =>
    match m.get? 0 with
    | none => .error .indexError
    | some m0 =>
      if m0 = "d" then
        match m.get? 1 with
        | none => .error .indexError
        | some key =>
          match dictLookup u.patch.value_maps key with
          | none => .error .keyError
          | some table => liftO .indexError (table.get? v)
      else if m0 = "s" then
        match m.get? 1 with
        | none => .error .indexError
        | some s1 =>
          match pyInt s1 with
          | none => .error .valueError
          | some n =>
            match all_vals.get? (n - 1).toNat with
            | none => .error .indexError
            | some dependent_val =>
              match m.get? (dependent_val + 2) with
              | none => .error .indexError
              | some key =>
                match dictLookup u.patch.value_maps key with
                | none => .error .keyError
                | some table => liftO .indexError (table.get? v)
      else .error .valueError

/-- Udo.get_params: on a declared/actual parameter count mismatch, log and
return a list of -1 sentinels, one per actual parameter; otherwise map
every raw value through its mapping declaration. -/
def Udo.get_params (u : Udo) : Except Err (List Int) :=
  match (u.tpl.args.get? u.udo_variant).bind (fun a => a.get? 0) with
  | none => .error .indexError
  | some tpl_param_def =>
    let params := u.patch.find_mod_params u.mod.location u.mod.id
    if tpl_param_def.data.length ≠ params.values.length then
      .ok (List.replicate params.num_params (-1))
    else
      (enumFrom 0 params.values).mapM (fun iv => u.map_value iv.1 iv.2 params.values)

/-- Udo.get_statement: the rendered opcode instantiation line. -/
def Udo.get_statement (u : Udo) : Except Err String :=
  match u.get_params with
  | .error e => .error e
  | .ok ps =>
    .ok (u.get_name ++ "(" ++ "/* Params */ " ++ joinWith ", " (ps.map toString)
      ++ ", /* Inlets */ " ++ joinWith ", " (u.inlets.map toString)
      ++ ", /* Outlets */ " ++ joinWith ", " (u.outlets.map toString) ++ ")")

/-- The control-rate branch of the get-or-allocate step in
ZakSpace._zak_connect_direct. -/
def getOrAllocK (z : ZakSpace) (out_id : Nat × Nat) : ZakSpace × Nat :=
  match dictLookup z.zakk out_id with
  | some v => (z, v)
  | none =>
    let zn := z.kloc_new
    ({ zn.1 with zakk := dictInsert zn.1.zakk out_id zn.2 }, zn.2)

/-- The audio-rate branch of the get-or-allocate step in
ZakSpace._zak_connect_direct. -/
def getOrAllocA (z : ZakSpace) (out_id : Nat × Nat) : ZakSpace × Nat :=
  match dictLookup z.zaka out_id with
  | some v => (z, v)
  | none =>
    let zn := z.aloc_new
    ({ zn.1 with zaka := dictInsert zn.1.zaka out_id zn.2 }, zn.2)

/-- The outlet-slot write udos[mf].outlets[jf] = zak_id, with Python's
KeyError / IndexError behavior. -/
def setOutlet (udos : List (Nat × Udo)) (m j bus : Nat) :
    Except Err (List (Nat × Udo)) :=
  match dictLookup udos m with
  | none => .error .keyError
  | some u =>
    if j < u.outlets.length then
      .ok (dictInsert udos m { u with outlets := u.outlets.set j bus })
    else .error .indexError

/-- The inlet-slot write udos[mt].inlets[jt] = zak_id, with Python's
KeyError / IndexError behavior. -/
def setInlet (udos : List (Nat × Udo)) (m j bus : Nat) :
    Except Err (List (Nat × Udo)) :=
  match dictLookup udos m with
  | none => .error .keyError
  | some u =>
    if j < u.inlets.length then
      .ok (dictInsert udos m { u with inlets := u.inlets.set j bus })
    else .error .indexError

/-- ZakSpace._zak_connect_direct.  Besides the updated state it also
returns the rate character and the bus index assigned to the cable (the
source computes both as locals); the extra outputs instrument the pass so
that allocation-order properties can be stated. -/
def zak_connect_direct (c : Cable) (z : ZakSpace) (udos : List (Nat × Udo)) :
    Except Err (ZakSpace × List (Nat × Udo) × Char × Nat) :=
  match dictLookup udos c.module_from with
  | none => .error .keyError
  | some uf =>
    match uf.out_types.get? c.jack_from with
    | none => .error .indexError
    | some rate_type =>
      if rate_type ≠ 'k' ∧ rate_type ≠ 'a' then .error .valueError
      else
        match (if rate_type = 'k' then getOrAllocK z (c.module_from, c.jack_from)
               else getOrAllocA z (c.module_from, c.jack_from)) with
        | (z1, zak_id) =>
          match setOutlet udos c.module_from c.jack_from zak_id with
          | .error e => .error e
          | .ok udos1 =>
            match setInlet udos1 c.module_to c.jack_to zak_id with
            | .error e => .error e
            | .ok udos2 => .ok (z1, udos2, rate_type, zak_id)

/-- The per-cable assignment trace of the allocation pass: rate character,
(source module, source outlet) key, and assigned bus index. -/
abbrev ZakLog := List (Char × (Nat × Nat) × Nat)

/-- The loop body of ZakSpace.connect_patch: compare the two port rates,
then wire the cable directly or fail on a cross-rate cable.  The log
accumulates one entry per successfully wired cable. -/
def connectStep (acc : (ZakSpace × List (Nat × Udo)) × ZakLog) (c : Cable) :
    Except Err ((ZakSpace × List (Nat × Udo)) × ZakLog) :=
  match dictLookup acc.1.2 c.module_from with
  | none => .error .keyError
  | some uf =>
    match dictLookup acc.1.2 c.module_to with
    | none => .error .keyError
    | some ut =>
      match uf.out_types.get? c.jack_from with
      | none => .error .indexError
      | some ro =>
        match ut.in_types.get? c.jack_to with
        | none => .error .indexError
        | some ri =>
          if ro = ri then
            match zak_connect_direct c acc.1.1 acc.1.2 with
            | .error e => .error e
            | .ok r =>
              .ok ((r.1, r.2.1), acc.2 ++ [(r.2.2.1, (c.module_from, c.jack_from), r.2.2.2)])
          else .error .notImplementedError

/-- The dict comprehension of ZakSpace.connect_patch building one Udo per
module, keyed by module id. -/
def buildUdos (tpls : Nat → List String) (p : Patch) :
    Except Err (List (Nat × Udo)) :=
  p.modules.foldlM (fun d m =>
    match Udo.init tpls p m with
    | .error e => .error e
    | .ok u => .ok (dictInsert d m.id u)) []

/-- ZakSpace.connect_patch: reset the zak space, build the Udo dict, then
process every cable in patch order.  Returns the final zak space, the Udo
dict (the source returns list(udos.values()), its Prod.snd projection) and
the assignment trace. -/
def connect_patch (tpls : Nat → List String) (p : Patch) :
    Except Err (ZakSpace × List (Nat × Udo) × ZakLog) :=
  match buildUdos tpls p with
  | .error e => .error e
  | .ok udos =>
    match List.foldlM connectStep ((ZakSpace.init, udos), ([] : ZakLog)) p.cables with
    | .error e => .error e
    | .ok r => .ok (r.1.1, r.1.2, r.2)

/-- Csd.zakinit: the bus-space size declaration, audio counter first. -/
def Csd.zakinit (z : ZakSpace) : String :=
  "zakinit " ++ toString z.aloc_i ++ ", " ++ toString z.kloc_i

/-- Modelled from the spec: preprocess_csd_code is an external text
preprocessing collaborator (pch2csd/util.py, not part of the translated
source); the assembler does not interpret its content, so it is modelled
as the identity on text. -/
def preprocess_csd_code (s : String) : String := s

/-- The udo_src dict comprehension of Csd.udo_defs: instance name to
definition text, later instances with the same name overwriting earlier
ones. -/
def udoDefsDict (udos : List Udo) : List (String × String) :=
  udos.foldl (fun d u => dictInsert d u.get_name u.get_src) []

/-- The sorted name list of Csd.udo_defs. -/
def udoDefsNames (udos : List Udo) : List String :=
  List.insertionSort (fun a b => a ≤ b) ((udoDefsDict udos).map Prod.fst)

/-- Csd.udo_defs: one definition per distinct instance name, in sorted
name order, blank-line separated. -/
def udo_defs (udos : List Udo) : String :=
  joinWith "\n\n" ((udoDefsNames udos).map
    (fun n => preprocess_csd_code ((dictLookup (udoDefsDict udos) n).getD ""))) ++ "\n"

/-- The rate character a (module, outlet) key reads from the current Udo
dict: the outlet's declared rate character. -/
def rateOf (udos : List (Nat × Udo)) (key : Nat × Nat) : Option Char :=
  (dictLookup udos key.1).bind (fun u => u.out_types.get? key.2)

/-- First occurrences of a list, in first-encounter order. -/
def firstSeen {α : Type} [DecidableEq α] (l : List α) : List α :=
  l.foldl (fun acc a => if a ∈ acc then acc else acc ++ [a]) []

/-- The keys of the trace entries carrying a given rate character. -/
def logKeys (r : Char) (log : ZakLog) : List (Nat × Nat) :=
  (log.filter (fun e => e.1 == r)).map (fun e => e.2.1)

/-- The bus indices a rate space hands out, in allocation order: 3, 4, ... -/
def allocIndices : Nat → List Nat
  | 0 => []
  | n + 1 => allocIndices n ++ [3 + n]

/-! Concrete template store and patches used to evaluate the translated
code on explicit inputs. -/

/-- A concrete per-module-type template store: type 100 has one audio
outlet, 101 one audio inlet, 102 one audio inlet and one audio outlet,
103 one control inlet, 104 one inlet and one outlet of unknown rate x,
105 two declared parameters, 106 an invalid template without an args
annotation, 107 two variants whose single inlet is k in variant 0 and a
in variant 1. -/
def exTpls : Nat → List String := fun t =>
  if t = 100 then [";@ args ,,a", "amodA aout", "endop"]
  else if t = 101 then [";@ args ,a,", "amodB ain", "endop"]
  else if t = 102 then [";@ args ,a,a", "amodM ain aout", "endop"]
  else if t = 103 then [";@ args ,k,", "kmodD kin", "endop"]
  else if t = 104 then [";@ args ,x,x", "xmod", "endop"]
  else if t = 105 then [";@ args xy,,", "pmod", "endop"]
  else if t = 106 then ["opcode qmod", "endop"]
  else if t = 107 then [";@ args ,k,", ";@ args ,a,", "wmod", "endop"]
  else []

def modA : Module := ⟨0, 1, 100, "A"⟩

def modB : Module := ⟨1, 1, 101, "B"⟩

def cabAB : Cable := ⟨1, .audio, 0, 0, 1, 0⟩

/-- Patch of claim C2: A's audio outlet feeds B's audio inlet. -/
def exPatch : Patch :=
  { modules := [modA, modB], cables := [cabAB],
    find_mod_params := fun _ _ => ⟨[]⟩, value_maps := [] }

def exZ : ZakSpace :=
  match connect_patch exTpls exPatch with
  | .ok r => r.1
  | .error _ => ZakSpace.init

def exUdos : List (Nat × Udo) :=
  match connect_patch exTpls exPatch with
  | .ok r => r.2.1
  | .error _ => []

def exLog : ZakLog :=
  match connect_patch exTpls exPatch with
  | .ok r => r.2.2
  | .error _ => []

def emptyPatch : Patch := ⟨[], [], fun _ _ => ⟨[]⟩, []⟩

def dummyUdo : Udo :=
  { patch := emptyPatch, mod := ⟨0, 0, 0, ""⟩, tpl := ⟨0, "", [], [], [], []⟩,
    udo_variant := 0, in_types := [], out_types := [], inlets := [], outlets := [] }

def exStmtA : String :=
  match (dictLookup exUdos 0).getD dummyUdo |>.get_statement with
  | .ok s => s
  | .error _ => ""

def exStmtB : String :=
  match (dictLookup exUdos 1).getD dummyUdo |>.get_statement with
  | .ok s => s
  | .error _ => ""

def modC : Module := ⟨2, 1, 101, "C"⟩

def cabAC : Cable := ⟨1, .audio, 0, 0, 2, 0⟩

/-- Fan-out patch: A's single audio outlet feeds both B and C. -/
def exPatch2 : Patch :=
  { modules := [modA, modB, modC], cables := [cabAB, cabAC],
    find_mod_params := fun _ _ => ⟨[]⟩, value_maps := [] }

def exZ2 : ZakSpace :=
  match connect_patch exTpls exPatch2 with
  | .ok r => r.1
  | .error _ => ZakSpace.init

def exUdos2 : List (Nat × Udo) :=
  match connect_patch exTpls exPatch2 with
  | .ok r => r.2.1
  | .error _ => []

def exLog2 : ZakLog :=
  match connect_patch exTpls exPatch2 with
  | .ok r => r.2.2
  | .error _ => []

def logDflt : Char × (Nat × Nat) × Nat := ('x', (0, 0), 0)

def modM : Module := ⟨0, 1, 102, "M"⟩

/-- Patch of claim C3: a single module with one inlet and one outlet and
no cables at all. -/
def exPatch3 : Patch :=
  { modules := [modM], cables := [],
    find_mod_params := fun _ _ => ⟨[]⟩, value_maps := [] }

def modD : Module := ⟨1, 1, 103, "D"⟩

def cabAD : Cable := ⟨1, .audio, 0, 0, 1, 0⟩

/-- Cross-rate patch: A's audio outlet feeds D's control inlet. -/
def exPatchX : Patch :=
  { modules := [modA, modD], cables := [cabAD],
    find_mod_params := fun _ _ => ⟨[]⟩, value_maps := [] }

def exUdosX : List (Nat × Udo) :=
  match buildUdos exTpls exPatchX with
  | .ok d => d
  | .error _ => []

def ufAX : Udo := (dictLookup exUdosX 0).getD dummyUdo

def utDX : Udo := (dictLookup exUdosX 1).getD dummyUdo

def modE : Module := ⟨0, 1, 104, "E"⟩

def modF : Module := ⟨1, 1, 104, "F"⟩

def cabEF : Cable := ⟨1, .audio, 0, 0, 1, 0⟩

/-- Unknown-rate patch: both ports of the only cable have rate x. -/
def exPatchY : Patch :=
  { modules := [modE, modF], cables := [cabEF],
    find_mod_params := fun _ _ => ⟨[]⟩, value_maps := [] }

def exUdosY : List (Nat × Udo) :=
  match buildUdos exTpls exPatchY with
  | .ok d => d
  | .error _ => []

def ufEY : Udo := (dictLookup exUdosY 0).getD dummyUdo

def utFY : Udo := (dictLookup exUdosY 1).getD dummyUdo

def modP : Module := ⟨0, 1, 105, "P"⟩

/-- Patch of claim C7: the template of P declares two parameters but the
patch supplies a single value. -/
def exPatch7 : Patch :=
  { modules := [modP], cables := [],
    find_mod_params := fun _ _ => ⟨[5]⟩, value_maps := [] }

def uW : Udo :=
  match Udo.init exTpls exPatch7 modP with
  | .ok u => u
  | .error _ => dummyUdo

def modQ : Module := ⟨0, 1, 106, "Q"⟩

/-- Patch of claim C8: Q's template has no args annotation. -/
def exPatch8 : Patch :=
  { modules := [modQ], cables := [],
    find_mod_params := fun _ _ => ⟨[]⟩, value_maps := [] }

def modR : Module := ⟨0, 1, 108, "R"⟩

/-- Template store for claim C8's second failure mode: R's template has an
args annotation with only two comma-separated components, so validation
fails on the declaration arity. -/
def exTplsR : Nat → List String := fun t =>
  if t = 108 then [";@ args a,a", "rmod ain aout", "endop"] else []

/-- Patch of claim C8's second failure mode: R's args annotation is
malformed. -/
def exPatchR : Patch :=
  { modules := [modR], cables := [],
    find_mod_params := fun _ _ => ⟨[]⟩, value_maps := [] }

def modW : Module := ⟨0, 1, 107, "W"⟩

def cabToW : Cable := ⟨1, .audio, 5, 0, 0, 0⟩

/-- Patch of claim C4: an audio cable arrives at W's single inlet, whose
declared rate is k in variant 0 and a in variant 1. -/
def exPatchW : Patch :=
  { modules := [modW], cables := [cabToW],
    find_mod_params := fun _ _ => ⟨[]⟩, value_maps := [] }

def tplW : UdoTemplate := UdoTemplate.ofLines 107 "W" (exTpls 107)

/-- Udo list of claim C9's witness, deliberately out of name order. -/
def exNameUdos : List Udo :=
  [(dictLookup exUdos 1).getD dummyUdo, (dictLookup exUdos 0).getD dummyUdo]

/-! Helper lemmas about the dict embedding. -/

theorem dictLookup_insert {κ α : Type} [DecidableEq κ] (d : List (κ × α))
    (k k' : κ) (v : α) :
    dictLookup (dictInsert d k v) k' = if k = k' then some v else dictLookup d k' := by
  induction d with
  | nil =>
    simp only [dictInsert, dictLookup]
  | cons kv rest ih =>
    obtain ⟨k0, v0⟩ := kv
    by_cases h0 : k0 = k
    · subst h0
      simp only [dictInsert, if_pos rfl, dictLookup]
      by_cases h1 : k0 = k'
      · simp [h1]
      · simp [h1]
    · simp only [dictInsert, if_neg h0, dictLookup, ih]
      by_cases h1 : k0 = k'
      · subst h1
        have hne : ¬k = k0 := fun he => h0 he.symm
        simp [hne]
      · simp [h1]

theorem dictLookup_none_iff {κ α : Type} [DecidableEq κ] {d : List (κ × α)} {k : κ} :
    dictLookup d k = none ↔ k ∉ d.map Prod.fst := by
  induction d with
  | nil => simp [dictLookup]
  | cons kv rest ih =>
    obtain ⟨k0, v0⟩ := kv
    by_cases h0 : k0 = k
    · subst h0
      simp [dictLookup]
    · rw [List.map_cons]
      rw [show dictLookup ((k0, v0) :: rest) k = dictLookup rest k by
        simp [dictLookup, h0]]
      rw [ih, List.mem_cons]
      have hne : ¬k = k0 := fun he => h0 he.symm
      tauto

theorem dictLookup_append_left {κ α : Type} [DecidableEq κ] {d d' : List (κ × α)}
    {k : κ} {v : α} (h : dictLookup d k = some v) :
    dictLookup (d ++ d') k = some v := by
  induction d with
  | nil => simp [dictLookup] at h
  | cons kv rest ih =>
    obtain ⟨k0, v0⟩ := kv
    by_cases h0 : k0 = k
    · simp_all [dictLookup]
    · simp_all [dictLookup, h0]

theorem dictLookup_append_right {κ α : Type} [DecidableEq κ] {d d' : List (κ × α)}
    {k : κ} (h : dictLookup d k = none) :
    dictLookup (d ++ d') k = dictLookup d' k := by
  induction d with
  | nil => simp [dictLookup]
  | cons kv rest ih =>
    obtain ⟨k0, v0⟩ := kv
    by_cases h0 : k0 = k
    · simp_all [dictLookup]
    · simp_all [dictLookup, h0]

theorem dictInsert_of_none {κ α : Type} [DecidableEq κ] {d : List (κ × α)} {k : κ}
    (v : α) (h : dictLookup d k = none) : dictInsert d k v = d ++ [(k, v)] := by
  induction d with
  | nil => simp [dictInsert]
  | cons kv rest ih =>
    obtain ⟨k0, v0⟩ := kv
    by_cases h0 : k0 = k
    · simp_all [dictLookup]
    · simp_all [dictInsert, dictLookup, h0]

theorem mem_values_of_lookup {κ α : Type} [DecidableEq κ] {d : List (κ × α)}
    {k : κ} {v : α} (h : dictLookup d k = some v) : v ∈ d.map Prod.snd := by
  induction d with
  | nil => simp [dictLookup] at h
  | cons kv rest ih =>
    obtain ⟨k0, v0⟩ := kv
    by_cases h0 : k0 = k
    · simp [dictLookup, h0] at h
      simp [h]
    · simp only [dictLookup, if_neg h0] at h
      simp [ih h]

theorem mem_keys_of_lookup {κ α : Type} [DecidableEq κ] {d : List (κ × α)}
    {k : κ} {v : α} (h : dictLookup d k = some v) : k ∈ d.map Prod.fst := by
  by_contra hk
  rw [← dictLookup_none_iff] at hk
  rw [hk] at h
  exact Option.noConfusion h

theorem dictInsert_keys {κ α : Type} [DecidableEq κ] (d : List (κ × α)) (k : κ) (v : α) :
    (dictInsert d k v).map Prod.fst =
      if k ∈ d.map Prod.fst then d.map Prod.fst else d.map Prod.fst ++ [k] := by
  induction d with
  | nil => simp [dictInsert]
  | cons kv rest ih =>
    obtain ⟨k0, v0⟩ := kv
    by_cases h0 : k0 = k
    · subst h0
      simp [dictInsert]
    · have hne : ¬k = k0 := fun he => h0 he.symm
      simp only [dictInsert, if_neg h0, List.map_cons, ih, List.mem_cons]
      by_cases h1 : k ∈ rest.map Prod.fst
      · simp [h1, hne]
      · simp [h1, hne]

/-! Helper lemmas about firstSeen, logKeys and allocIndices. -/

theorem firstSeen_append_single {α : Type} [DecidableEq α] (l : List α) (a : α) :
    firstSeen (l ++ [a]) =
      if a ∈ firstSeen l then firstSeen l else firstSeen l ++ [a] := by
  simp [firstSeen, List.foldl_append]

theorem firstSeen_nodup_aux {α : Type} [DecidableEq α] (l : List α) :
    ∀ acc : List α, acc.Nodup →
      (l.foldl (fun acc a => if a ∈ acc then acc else acc ++ [a]) acc).Nodup := by
  induction l with
  | nil => intro acc h; simpa using h
  | cons a as ih =>
    intro acc h
    simp only [List.foldl_cons]
    by_cases ha : a ∈ acc
    · simpa [ha] using ih acc h
    · refine (if_neg ha) ▸ ih (acc ++ [a]) ?_
      simp [List.nodup_append, h, ha]

theorem firstSeen_nodup {α : Type} [DecidableEq α] (l : List α) :
    (firstSeen l).Nodup :=
  firstSeen_nodup_aux l [] List.nodup_nil

theorem logKeys_append_single (r : Char) (log : ZakLog) (e : Char × (Nat × Nat) × Nat) :
    logKeys r (log ++ [e]) =
      logKeys r log ++ if e.1 = r then [e.2.1] else [] := by
  by_cases h : e.1 = r <;> simp [logKeys, List.filter_append, h]

theorem allocIndices_length (n : Nat) : (allocIndices n).length = n := by
  induction n with
  | zero => rfl
  | succ n ih => simp [allocIndices, ih]

theorem allocIndices_mem {m n : Nat} : m ∈ allocIndices n ↔ 3 ≤ m ∧ m < 3 + n := by
  induction n with
  | zero => simp [allocIndices]
  | succ n ih =>
    simp only [allocIndices, List.mem_append, List.mem_singleton, ih]
    omega

theorem allocIndices_pairwise (n : Nat) : List.Pairwise (· < ·) (allocIndices n) := by
  induction n with
  | zero => exact List.Pairwise.nil
  | succ n ih =>
    rw [allocIndices, List.pairwise_append]
    refine ⟨ih, List.pairwise_singleton _ _, ?_⟩
    intro a ha b hb
    rw [allocIndices_mem] at ha
    simp only [List.mem_singleton] at hb
    omega

theorem allocIndices_head {n : Nat} (h : n ≠ 0) : (allocIndices n).head? = some 3 := by
  induction n with
  | zero => exact absurd rfl h
  | succ n ih =>
    rw [allocIndices]
    by_cases h0 : n = 0
    · subst h0; rfl
    · cases he : allocIndices n with
      | nil =>
        have := allocIndices_length n
        rw [he] at this
        exact absurd this.symm h0
      | cons x xs =>
        have := ih h0
        rw [he] at this
        simp only [List.head?] at this
        simp [this]

/-! Inversion and stability lemmas for the allocator building blocks. -/

theorem getOrAllocK_hit {z : ZakSpace} {key : Nat × Nat} {v : Nat}
    (h : dictLookup z.zakk key = some v) : getOrAllocK z key = (z, v) := by
  unfold getOrAllocK
  rw [h]

theorem getOrAllocK_miss {z : ZakSpace} {key : Nat × Nat}
    (h : dictLookup z.zakk key = none) :
    getOrAllocK z key =
      ({ z with kloc_i := z.kloc_i + 1,
                zakk := z.zakk ++ [(key, z.kloc_i + 1)] }, z.kloc_i + 1) := by
  unfold getOrAllocK
  rw [h, ← dictInsert_of_none _ h]
  rfl

theorem getOrAllocA_hit {z : ZakSpace} {key : Nat × Nat} {v : Nat}
    (h : dictLookup z.zaka key = some v) : getOrAllocA z key = (z, v) := by
  unfold getOrAllocA
  rw [h]

theorem getOrAllocA_miss {z : ZakSpace} {key : Nat × Nat}
    (h : dictLookup z.zaka key = none) :
    getOrAllocA z key =
      ({ z with aloc_i := z.aloc_i + 1,
                zaka := z.zaka ++ [(key, z.aloc_i + 1)] }, z.aloc_i + 1) := by
  unfold getOrAllocA
  rw [h, ← dictInsert_of_none _ h]
  rfl

theorem setOutlet_ok {udos udos' : List (Nat × Udo)} {m j bus : Nat}
    (h : setOutlet udos m j bus = .ok udos') :
    ∃ u, dictLookup udos m = some u ∧ j < u.outlets.length ∧
      udos' = dictInsert udos m { u with outlets := u.outlets.set j bus } := by
  unfold setOutlet at h
  cases hm : dictLookup udos m with
  | none => simp only [hm] at h; exact Except.noConfusion h
  | some u =>
    simp only [hm] at h
    by_cases hj : j < u.outlets.length
    · rw [if_pos hj] at h
      injection h with h
      exact ⟨u, rfl, hj, h.symm⟩
    · rw [if_neg hj] at h
      exact Except.noConfusion h

theorem setInlet_ok {udos udos' : List (Nat × Udo)} {m j bus : Nat}
    (h : setInlet udos m j bus = .ok udos') :
    ∃ u, dictLookup udos m = some u ∧ j < u.inlets.length ∧
      udos' = dictInsert udos m { u with inlets := u.inlets.set j bus } := by
  unfold setInlet at h
  cases hm : dictLookup udos m with
  | none => simp only [hm] at h; exact Except.noConfusion h
  | some u =>
    simp only [hm] at h
    by_cases hj : j < u.inlets.length
    · rw [if_pos hj] at h
      injection h with h
      exact ⟨u, rfl, hj, h.symm⟩
    · rw [if_neg hj] at h
      exact Except.noConfusion h

theorem setOutlet_error {udos : List (Nat × Udo)} {m j bus : Nat} {e : Err}
    (h : setOutlet udos m j bus = .error e) : e = .keyError ∨ e = .indexError := by
  unfold setOutlet at h
  cases hm : dictLookup udos m with
  | none =>
    simp only [hm] at h
    injection h with h
    exact Or.inl h.symm
  | some u =>
    simp only [hm] at h
    by_cases hj : j < u.outlets.length
    · rw [if_pos hj] at h
      exact Except.noConfusion h
    · rw [if_neg hj] at h
      injection h with h
      exact Or.inr h.symm

theorem setInlet_error {udos : List (Nat × Udo)} {m j bus : Nat} {e : Err}
    (h : setInlet udos m j bus = .error e) : e = .keyError ∨ e = .indexError := by
  unfold setInlet at h
  cases hm : dictLookup udos m with
  | none =>
    simp only [hm] at h
    injection h with h
    exact Or.inl h.symm
  | some u =>
    simp only [hm] at h
    by_cases hj : j < u.inlets.length
    · rw [if_pos hj] at h
      exact Except.noConfusion h
    · rw [if_neg hj] at h
      injection h with h
      exact Or.inr h.symm

theorem rateOf_dictInsert_same_types {udos : List (Nat × Udo)} {m : Nat} {u u' : Udo}
    (hm : dictLookup udos m = some u) (ht : u'.out_types = u.out_types) :
    ∀ key, rateOf (dictInsert udos m u') key = rateOf udos key := by
  intro key
  unfold rateOf
  rw [dictLookup_insert]
  by_cases hk : m = key.1
  · rw [if_pos hk, ← hk, hm]
    show u'.out_types.get? key.2 = u.out_types.get? key.2
    rw [ht]
  · rw [if_neg hk]

theorem rateOf_setOutlet {udos udos' : List (Nat × Udo)} {m j bus : Nat}
    (h : setOutlet udos m j bus = .ok udos') :
    ∀ key, rateOf udos' key = rateOf udos key := by
  obtain ⟨u, hm, _, rfl⟩ := setOutlet_ok h
  exact rateOf_dictInsert_same_types hm rfl

theorem rateOf_setInlet {udos udos' : List (Nat × Udo)} {m j bus : Nat}
    (h : setInlet udos m j bus = .ok udos') :
    ∀ key, rateOf udos' key = rateOf udos key := by
  obtain ⟨u, hm, _, rfl⟩ := setInlet_ok h
  exact rateOf_dictInsert_same_types hm rfl

theorem zak_connect_direct_ok {c : Cable} {z : ZakSpace} {udos : List (Nat × Udo)}
    {z' : ZakSpace} {udos' : List (Nat × Udo)} {r : Char} {bus : Nat}
    (h : zak_connect_direct c z udos = .ok (z', udos', r, bus)) :
    (r = 'k' ∨ r = 'a') ∧
    rateOf udos (c.module_from, c.jack_from) = some r ∧
    (∀ key, rateOf udos' key = rateOf udos key) ∧
    ((r = 'k' ∧ (z', bus) = getOrAllocK z (c.module_from, c.jack_from)) ∨
     (r = 'a' ∧ (z', bus) = getOrAllocA z (c.module_from, c.jack_from))) := by
  unfold zak_connect_direct at h
  cases hf : dictLookup udos c.module_from with
  | none => simp only [hf] at h; exact Except.noConfusion h
  | some uf =>
    simp only [hf] at h
    cases hr : uf.out_types.get? c.jack_from with
    | none => simp only [hr] at h; exact Except.noConfusion h
    | some rate_type =>
      simp only [hr] at h
      by_cases hka : rate_type ≠ 'k' ∧ rate_type ≠ 'a'
      · rw [if_pos hka] at h
        exact Except.noConfusion h
      · rw [if_neg hka] at h
        have hka' : rate_type = 'k' ∨ rate_type = 'a' := by
          by_cases h1 : rate_type = 'k'
          · exact Or.inl h1
          · by_cases h2 : rate_type = 'a'
            · exact Or.inr h2
            · exact absurd ⟨h1, h2⟩ hka
        cases hza : (if rate_type = 'k' then getOrAllocK z (c.module_from, c.jack_from)
                     else getOrAllocA z (c.module_from, c.jack_from)) with
        | mk z1 zak_id =>
          rw [hza] at h
          cases hso : setOutlet udos c.module_from c.jack_from zak_id with
          | error e => simp only [hso] at h; exact Except.noConfusion h
          | ok udos1 =>
            simp only [hso] at h
            cases hsi : setInlet udos1 c.module_to c.jack_to zak_id with
            | error e => simp only [hsi] at h; exact Except.noConfusion h
            | ok udos2 =>
              simp only [hsi] at h
              simp only [Except.ok.injEq, Prod.mk.injEq] at h
              obtain ⟨rfl, rfl, rfl, rfl⟩ := h
              refine ⟨hka', ?_, ?_, ?_⟩
              · unfold rateOf
                rw [hf]
                exact hr
              · intro key
                rw [rateOf_setInlet hsi key, rateOf_setOutlet hso key]
              · cases hka' with
                | inl hk =>
                  refine Or.inl ⟨hk, ?_⟩
                  rw [if_pos hk] at hza
                  rw [hza]
                | inr ha =>
                  by_cases hk : rate_type = 'k'
                  · refine Or.inl ⟨hk, ?_⟩
                    rw [if_pos hk] at hza
                    rw [hza]
                  · refine Or.inr ⟨ha, ?_⟩
                    rw [if_neg hk] at hza
                    rw [hza]

theorem zak_connect_direct_ne_notimpl (c : Cable) (z : ZakSpace)
    (udos : List (Nat × Udo)) :
    zak_connect_direct c z udos ≠ .error .notImplementedError := by
  intro hcon
  unfold zak_connect_direct at hcon
  cases hf : dictLookup udos c.module_from with
  | none =>
    simp only [hf] at hcon
    injection hcon with he
    exact Err.noConfusion he
  | some uf =>
    simp only [hf] at hcon
    cases hr : uf.out_types.get? c.jack_from with
    | none =>
      simp only [hr] at hcon
      injection hcon with he
      exact Err.noConfusion he
    | some rate_type =>
      simp only [hr] at hcon
      by_cases hka : rate_type ≠ 'k' ∧ rate_type ≠ 'a'
      · rw [if_pos hka] at hcon
        injection hcon with he
        exact Err.noConfusion he
      · rw [if_neg hka] at hcon
        cases hza : (if rate_type = 'k' then getOrAllocK z (c.module_from, c.jack_from)
                     else getOrAllocA z (c.module_from, c.jack_from)) with
        | mk z1 zak_id =>
          rw [hza] at hcon
          cases hso : setOutlet udos c.module_from c.jack_from zak_id with
          | error e =>
            simp only [hso] at hcon
            injection hcon with he
            rcases setOutlet_error hso with h | h <;>
              (rw [he] at h; exact Err.noConfusion h)
          | ok udos1 =>
            simp only [hso] at hcon
            cases hsi : setInlet udos1 c.module_to c.jack_to zak_id with
            | error e =>
              simp only [hsi] at hcon
              injection hcon with he
              rcases setInlet_error hsi with h | h <;>
                (rw [he] at h; exact Err.noConfusion h)
            | ok udos2 =>
              simp only [hsi] at hcon
              exact Except.noConfusion hcon

/-! The allocation-pass invariant. -/

/-- Invariant of the allocation pass: counters track map sizes, allocated
indices form the run 3, 4, ... in insertion order, map keys are the first
occurrences of the traced keys of the matching rate, every trace entry is
recorded in the matching map, carries the rate character its key reads
from the Udo dict, and has rate k or a. -/
structure ZakInv (z : ZakSpace) (udos : List (Nat × Udo)) (log : ZakLog) : Prop where
  kcount : z.kloc_i = 2 + z.zakk.length
  acount : z.aloc_i = 2 + z.zaka.length
  kvals : z.zakk.map Prod.snd = allocIndices z.zakk.length
  avals : z.zaka.map Prod.snd = allocIndices z.zaka.length
  kkeys : z.zakk.map Prod.fst = firstSeen (logKeys 'k' log)
  akeys : z.zaka.map Prod.fst = firstSeen (logKeys 'a' log)
  log_k : ∀ e ∈ log, e.1 = 'k' → dictLookup z.zakk e.2.1 = some e.2.2
  log_a : ∀ e ∈ log, e.1 = 'a' → dictLookup z.zaka e.2.1 = some e.2.2
  log_rate : ∀ e ∈ log, rateOf udos e.2.1 = some e.1
  log_ka : ∀ e ∈ log, e.1 = 'k' ∨ e.1 = 'a'

theorem ZakInv.step_k {z z' : ZakSpace} {udos udos' : List (Nat × Udo)}
    {log : ZakLog} {key : Nat × Nat} {bus : Nat}
    (inv : ZakInv z udos log)
    (hzb : (z', bus) = getOrAllocK z key)
    (hstab : ∀ k, rateOf udos' k = rateOf udos k)
    (hrate : rateOf udos key = some 'k') :
    ZakInv z' udos' (log ++ [('k', key, bus)]) := by
  have hlogk : logKeys 'k' (log ++ [('k', key, bus)]) = logKeys 'k' log ++ [key] := by
    simp [logKeys_append_single]
  have hloga : logKeys 'a' (log ++ [('k', key, bus)]) = logKeys 'a' log := by
    simp [logKeys_append_single]
  cases hkey : dictLookup z.zakk key with
  | some v =>
    rw [getOrAllocK_hit hkey] at hzb
    have h1 : z' = z := congrArg Prod.fst hzb
    have h2 : bus = v := congrArg Prod.snd hzb
    subst h1; subst h2
    refine ⟨inv.kcount, inv.acount, inv.kvals, inv.avals, ?_, ?_, ?_, ?_, ?_, ?_⟩
    · rw [hlogk, firstSeen_append_single,
        if_pos (inv.kkeys ▸ mem_keys_of_lookup hkey)]
      exact inv.kkeys
    · rw [hloga]; exact inv.akeys
    · intro e he hek
      rcases List.mem_append.mp he with h | h
      · exact inv.log_k e h hek
      · simp only [List.mem_singleton] at h
        subst h
        exact hkey
    · intro e he hea
      rcases List.mem_append.mp he with h | h
      · exact inv.log_a e h hea
      · simp only [List.mem_singleton] at h
        subst h
        have hcon : ('k' : Char) = 'a' := hea
        exact absurd hcon (by decide)
    · intro e he
      rcases List.mem_append.mp he with h | h
      · rw [hstab]; exact inv.log_rate e h
      · simp only [List.mem_singleton] at h
        subst h
        rw [hstab]
        exact hrate
    · intro e he
      rcases List.mem_append.mp he with h | h
      · exact inv.log_ka e h
      · simp only [List.mem_singleton] at h
        subst h
        exact Or.inl rfl
  | none =>
    rw [getOrAllocK_miss hkey] at hzb
    have h1 : z' = { z with
        kloc_i := z.kloc_i + 1
        zakk := z.zakk ++ [(key, z.kloc_i + 1)] } :=
      congrArg Prod.fst hzb
    have h2 : bus = z.kloc_i + 1 := congrArg Prod.snd hzb
    subst h1; subst h2
    have hkl : z.kloc_i = 2 + z.zakk.length := inv.kcount
    refine ⟨?_, inv.acount, ?_, inv.avals, ?_, ?_, ?_, ?_, ?_, ?_⟩
    · simp only [List.length_append, List.length_cons, List.length_nil]
      omega
    · simp only [List.map_append, List.map_cons, List.map_nil,
        List.length_append, List.length_cons, List.length_nil, inv.kvals]
      rw [show z.zakk.length + (0 + 1) = z.zakk.length + 1 by omega]
      rw [show allocIndices (z.zakk.length + 1)
            = allocIndices z.zakk.length ++ [3 + z.zakk.length] from rfl]
      rw [show z.kloc_i + 1 = 3 + z.zakk.length by omega]
    · rw [hlogk, firstSeen_append_single,
        if_neg (inv.kkeys ▸ dictLookup_none_iff.mp hkey)]
      simp only [List.map_append, List.map_cons, List.map_nil, inv.kkeys]
    · rw [hloga]; exact inv.akeys
    · intro e he hek
      rcases List.mem_append.mp he with h | h
      · exact dictLookup_append_left (inv.log_k e h hek)
      · simp only [List.mem_singleton] at h
        subst h
        rw [dictLookup_append_right hkey]
        simp [dictLookup]
    · intro e he hea
      rcases List.mem_append.mp he with h | h
      · exact inv.log_a e h hea
      · simp only [List.mem_singleton] at h
        subst h
        have hcon : ('k' : Char) = 'a' := hea
        exact absurd hcon (by decide)
    · intro e he
      rcases List.mem_append.mp he with h | h
      · rw [hstab]; exact inv.log_rate e h
      · simp only [List.mem_singleton] at h
        subst h
        rw [hstab]
        exact hrate
    · intro e he
      rcases List.mem_append.mp he with h | h
      · exact inv.log_ka e h
      · simp only [List.mem_singleton] at h
        subst h
        exact Or.inl rfl

theorem ZakInv.step_a {z z' : ZakSpace} {udos udos' : List (Nat × Udo)}
    {log : ZakLog} {key : Nat × Nat} {bus : Nat}
    (inv : ZakInv z udos log)
    (hzb : (z', bus) = getOrAllocA z key)
    (hstab : ∀ k, rateOf udos' k = rateOf udos k)
    (hrate : rateOf udos key = some 'a') :
    ZakInv z' udos' (log ++ [('a', key, bus)]) := by
  have hlogk : logKeys 'k' (log ++ [('a', key, bus)]) = logKeys 'k' log := by
    simp [logKeys_append_single]
  have hloga : logKeys 'a' (log ++ [('a', key, bus)]) = logKeys 'a' log ++ [key] := by
    simp [logKeys_append_single]
  cases hkey : dictLookup z.zaka key with
  | some v =>
    rw [getOrAllocA_hit hkey] at hzb
    have h1 : z' = z := congrArg Prod.fst hzb
    have h2 : bus = v := congrArg Prod.snd hzb
    subst h1; subst h2
    refine ⟨inv.kcount, inv.acount, inv.kvals, inv.avals, ?_, ?_, ?_, ?_, ?_, ?_⟩
    · rw [hlogk]; exact inv.kkeys
    · rw [hloga, firstSeen_append_single,
        if_pos (inv.akeys ▸ mem_keys_of_lookup hkey)]
      exact inv.akeys
    · intro e he hek
      rcases List.mem_append.mp he with h | h
      · exact inv.log_k e h hek
      · simp only [List.mem_singleton] at h
        subst h
        have hcon : ('a' : Char) = 'k' := hek
        exact absurd hcon (by decide)
    · intro e he hea
      rcases List.mem_append.mp he with h | h
      · exact inv.log_a e h hea
      · simp only [List.mem_singleton] at h
        subst h
        exact hkey
    · intro e he
      rcases List.mem_append.mp he with h | h
      · rw [hstab]; exact inv.log_rate e h
      · simp only [List.mem_singleton] at h
        subst h
        rw [hstab]
        exact hrate
    · intro e he
      rcases List.mem_append.mp he with h | h
      · exact inv.log_ka e h
      · simp only [List.mem_singleton] at h
        subst h
        exact Or.inr rfl
  | none =>
    rw [getOrAllocA_miss hkey] at hzb
    have h1 : z' = { z with
        aloc_i := z.aloc_i + 1
        zaka := z.zaka ++ [(key, z.aloc_i + 1)] } :=
      congrArg Prod.fst hzb
    have h2 : bus = z.aloc_i + 1 := congrArg Prod.snd hzb
    subst h1; subst h2
    have hal : z.aloc_i = 2 + z.zaka.length := inv.acount
    refine ⟨inv.kcount, ?_, inv.kvals, ?_, ?_, ?_, ?_, ?_, ?_, ?_⟩
    · simp only [List.length_append, List.length_cons, List.length_nil]
      omega
    · simp only [List.map_append, List.map_cons, List.map_nil,
        List.length_append, List.length_cons, List.length_nil, inv.avals]
      rw [show z.zaka.length + (0 + 1) = z.zaka.length + 1 by omega]
      rw [show allocIndices (z.zaka.length + 1)
            = allocIndices z.zaka.length ++ [3 + z.zaka.length] from rfl]
      rw [show z.aloc_i + 1 = 3 + z.zaka.length by omega]
    · rw [hlogk]; exact inv.kkeys
    · rw [hloga, firstSeen_append_single,
        if_neg (inv.akeys ▸ dictLookup_none_iff.mp hkey)]
      simp only [List.map_append, List.map_cons, List.map_nil, inv.akeys]
    · intro e he hek
      rcases List.mem_append.mp he with h | h
      · exact inv.log_k e h hek
      · simp only [List.mem_singleton] at h
        subst h
        have hcon : ('a' : Char) = 'k' := hek
        exact absurd hcon (by decide)
    · intro e he hea
      rcases List.mem_append.mp he with h | h
      · exact dictLookup_append_left (inv.log_a e h hea)
      · simp only [List.mem_singleton] at h
        subst h
        rw [dictLookup_append_right hkey]
        simp [dictLookup]
    · intro e he
      rcases List.mem_append.mp he with h | h
      · rw [hstab]; exact inv.log_rate e h
      · simp only [List.mem_singleton] at h
        subst h
        rw [hstab]
        exact hrate
    · intro e he
      rcases List.mem_append.mp he with h | h
      · exact inv.log_ka e h
      · simp only [List.mem_singleton] at h
        subst h
        exact Or.inr rfl

theorem connectStep_ok {s s' : (ZakSpace × List (Nat × Udo)) × ZakLog} {c : Cable}
    (h : connectStep s c = .ok s') :
    ∃ z' udos' r bus,
      zak_connect_direct c s.1.1 s.1.2 = .ok (z', udos', r, bus) ∧
      s' = ((z', udos'), s.2 ++ [(r, (c.module_from, c.jack_from), bus)]) := by
  unfold connectStep at h
  cases hf : dictLookup s.1.2 c.module_from with
  | none => simp only [hf] at h; exact Except.noConfusion h
  | some uf =>
    simp only [hf] at h
    cases ht : dictLookup s.1.2 c.module_to with
    | none => simp only [ht] at h; exact Except.noConfusion h
    | some ut =>
      simp only [ht] at h
      cases hro : uf.out_types.get? c.jack_from with
      | none => simp only [hro] at h; exact Except.noConfusion h
      | some ro =>
        simp only [hro] at h
        cases hri : ut.in_types.get? c.jack_to with
        | none => simp only [hri] at h; exact Except.noConfusion h
        | some ri =>
          simp only [hri] at h
          by_cases heq : ro = ri
          · rw [if_pos heq] at h
            cases hz : zak_connect_direct c s.1.1 s.1.2 with
            | error e => simp only [hz] at h; exact Except.noConfusion h
            | ok res =>
              simp only [hz] at h
              injection h with h
              exact ⟨res.1, res.2.1, res.2.2.1, res.2.2.2, rfl, h.symm⟩
          · rw [if_neg heq] at h
            exact Except.noConfusion h

theorem connectStep_inv {s s' : (ZakSpace × List (Nat × Udo)) × ZakLog} {c : Cable}
    (h : connectStep s c = .ok s') (inv : ZakInv s.1.1 s.1.2 s.2) :
    ZakInv s'.1.1 s'.1.2 s'.2 := by
  obtain ⟨z', udos', r, bus, hz, rfl⟩ := connectStep_ok h
  obtain ⟨hka, hrate, hstab, halloc⟩ := zak_connect_direct_ok hz
  rcases halloc with ⟨hk, hzb⟩ | ⟨ha, hzb⟩
  · subst hk
    exact inv.step_k hzb hstab hrate
  · subst ha
    exact inv.step_a hzb hstab hrate

theorem foldlM_connectStep_inv :
    ∀ (cables : List Cable) (s s' : (ZakSpace × List (Nat × Udo)) × ZakLog),
      List.foldlM connectStep s cables = .ok s' →
      ZakInv s.1.1 s.1.2 s.2 → ZakInv s'.1.1 s'.1.2 s'.2 := by
  intro cables
  induction cables with
  | nil =>
    intro s s' h inv
    simp only [List.foldlM_nil] at h
    have h' : (Except.ok s : Except Err _) = .ok s' := h
    cases h'
    exact inv
  | cons c cs ih =>
    intro s s' h inv
    rw [List.foldlM_cons] at h
    cases hstep : connectStep s c with
    | error e =>
      rw [hstep] at h
      exact Except.noConfusion h
    | ok s1 =>
      rw [hstep] at h
      have h' : List.foldlM connectStep s1 cs = .ok s' := h
      exact ih s1 s' h' (connectStep_inv hstep inv)

theorem ZakInv_init (udos : List (Nat × Udo)) : ZakInv ZakSpace.init udos [] := by
  refine ⟨rfl, rfl, rfl, rfl, rfl, rfl, ?_, ?_, ?_, ?_⟩ <;>
    (intro e he; exact absurd he (List.not_mem_nil e))

theorem connect_patch_inv {tpls : Nat → List String} {p : Patch} {z : ZakSpace}
    {udos : List (Nat × Udo)} {log : ZakLog}
    (h : connect_patch tpls p = .ok (z, udos, log)) : ZakInv z udos log := by
  unfold connect_patch at h
  cases hb : buildUdos tpls p with
  | error e => simp only [hb] at h; exact Except.noConfusion h
  | ok udos0 =>
    simp only [hb] at h
    cases hf : List.foldlM connectStep ((ZakSpace.init, udos0), ([] : ZakLog)) p.cables with
    | error e => simp only [hf] at h; exact Except.noConfusion h
    | ok res =>
      simp only [hf] at h
      injection h with h
      have inv := foldlM_connectStep_inv p.cables _ res hf (ZakInv_init udos0)
      have h1 : res.1.1 = z := congrArg (fun t => t.1) h
      have h2 : res.1.2 = udos := congrArg (fun t => t.2.1) h
      have h3 : res.2 = log := congrArg (fun t => t.2.2) h
      rw [← h1, ← h2, ← h3]
      exact inv

/-! Claim theorems. -/

/-- C1 counterexample: on the concrete patch A-to-B with one audio cable,
the single allocation in the audio space hands out bus index 3 (the
source's _aloc_new pre-increments the counter that starts at 2), so the
first allocated index in a rate space is 3, not 2 as the claim states. -/
theorem C1_counterexample :
    exLog = [('a', (0, 0), 3)] ∧ exZ.zaka = [((0, 0), 3)] ∧ exZ.zakk = [] ∧
    (exZ.zaka.map Prod.snd).headD 0 = 3 :=
  ⟨rfl, rfl, rfl, rfl⟩

/-- C1 (amended): for every run of the allocation pass, in each rate space
the allocated bus indices are exactly 3, 4, ... in first-encounter order
of the distinct (source module, source outlet) keys, so they are strictly
increasing, the first allocated index of each space is 3, and indices 0, 1
and 2 are never assigned to any cable. -/
theorem C1_alloc_indices (tpls : Nat → List String) (p : Patch) (z : ZakSpace)
    (udos : List (Nat × Udo)) (log : ZakLog)
    (h : connect_patch tpls p = .ok (z, udos, log)) :
    z.zakk.map Prod.snd = allocIndices z.zakk.length ∧
    z.zaka.map Prod.snd = allocIndices z.zaka.length ∧
    List.Pairwise (· < ·) (z.zakk.map Prod.snd) ∧
    List.Pairwise (· < ·) (z.zaka.map Prod.snd) ∧
    z.zakk.map Prod.fst = firstSeen (logKeys 'k' log) ∧
    z.zaka.map Prod.fst = firstSeen (logKeys 'a' log) ∧
    (z.zakk ≠ [] → (z.zakk.map Prod.snd).head? = some 3) ∧
    (z.zaka ≠ [] → (z.zaka.map Prod.snd).head? = some 3) ∧
    (∀ e ∈ log, 3 ≤ e.2.2) := by
  have inv := connect_patch_inv h
  refine ⟨inv.kvals, inv.avals, ?_, ?_, inv.kkeys, inv.akeys, ?_, ?_, ?_⟩
  · rw [inv.kvals]
    exact allocIndices_pairwise _
  · rw [inv.avals]
    exact allocIndices_pairwise _
  · intro hne
    rw [inv.kvals]
    apply allocIndices_head
    intro h0
    exact hne (List.length_eq_zero.mp h0)
  · intro hne
    rw [inv.avals]
    apply allocIndices_head
    intro h0
    exact hne (List.length_eq_zero.mp h0)
  · intro e he
    rcases inv.log_ka e he with hk | ha
    · have hv := mem_values_of_lookup (inv.log_k e he hk)
      rw [inv.kvals] at hv
      exact (allocIndices_mem.mp hv).1
    · have hv := mem_values_of_lookup (inv.log_a e he ha)
      rw [inv.avals] at hv
      exact (allocIndices_mem.mp hv).1

theorem C1_alloc_indices_witness :
    exZ.zaka.map Prod.snd = allocIndices exZ.zaka.length ∧ (∀ e ∈ exLog, 3 ≤ e.2.2) :=
  ⟨(C1_alloc_indices exTpls exPatch exZ exUdos exLog rfl).2.1,
   (C1_alloc_indices exTpls exPatch exZ exUdos exLog rfl).2.2.2.2.2.2.2.2⟩

/-- C2 counterexample: on the two-module patch the bus-space declaration
does read "zakinit 3, 2" (audio counter 3, control counter 2), but B's
rendered instantiation statement references inlet bus 3, and A's outlet
bus 3; the character 2 does not occur in either statement, refuting the
claim that they reference index 2. -/
theorem C2_counterexample :
    Csd.zakinit exZ = "zakinit 3, 2" ∧
    exStmtB = "B(/* Params */ , /* Inlets */ 3, /* Outlets */ )" ∧
    exStmtA = "A(/* Params */ , /* Inlets */ , /* Outlets */ 3)" ∧
    exStmtB.data.contains '2' = false ∧
    exStmtA.data.contains '2' = false :=
  ⟨rfl, rfl, rfl, by decide, by decide⟩

/-- C2 (amended): the patch with modules A (one audio outlet) and B (one
audio inlet) joined by one audio cable yields the bus-space declaration
with audio counter 3 and control counter 2, and B's instantiation
statement contains inlet index 3 while A's contains outlet index 3. -/
theorem C2_amended_example :
    connect_patch exTpls exPatch = .ok (exZ, exUdos, exLog) ∧
    Csd.zakinit exZ = "zakinit 3, 2" ∧
    exZ.aloc_i = 3 ∧ exZ.kloc_i = 2 ∧
    (dictLookup exUdos 1).map (fun (u : Udo) => u.inlets) = some [3] ∧
    (dictLookup exUdos 0).map (fun (u : Udo) => u.outlets) = some [3] ∧
    exStmtB = "B(/* Params */ , /* Inlets */ 3, /* Outlets */ )" ∧
    exStmtA = "A(/* Params */ , /* Inlets */ , /* Outlets */ 3)" :=
  ⟨rfl, rfl, rfl, rfl, rfl, rfl, rfl, rfl⟩

/-- C3 (code bug): the source seeds inlet slots with trash_bus = 1 and
outlet slots with zero_bus = 0, the opposite of the claim (and of the
meaning of the constants' own names): after allocating a patch consisting
of one module with one inlet and one outlet and no cables, the unwired
inlet slot holds 1 and the unwired outlet slot holds 0. -/
theorem C3_sentinel_swap :
    ZakSpace.zero_bus = 0 ∧ ZakSpace.trash_bus = 1 ∧
    (match connect_patch exTpls exPatch3 with
     | .ok r => (dictLookup r.2.1 0).map (fun (u : Udo) => (u.inlets, u.outlets))
     | .error _ => none) = some ([1], [0]) :=
  ⟨rfl, rfl, rfl⟩

/-- C5: bus allocation is idempotent per (source module, source outlet)
key: any two trace entries with the same key were assigned the identical
bus index, and every entry's key is bound in the matching rate-space map
to exactly that index (at most one index per key across the pass). -/
theorem C5_fanout_idempotent (tpls : Nat → List String) (p : Patch) (z : ZakSpace)
    (udos : List (Nat × Udo)) (log : ZakLog)
    (h : connect_patch tpls p = .ok (z, udos, log)) :
    (∀ e1 ∈ log, ∀ e2 ∈ log, e1.2.1 = e2.2.1 → e1.2.2 = e2.2.2) ∧
    (∀ e ∈ log, (e.1 = 'k' → dictLookup z.zakk e.2.1 = some e.2.2) ∧
                (e.1 = 'a' → dictLookup z.zaka e.2.1 = some e.2.2)) := by
  have inv := connect_patch_inv h
  constructor
  · intro e1 h1 e2 h2 hkey
    have hr1 := inv.log_rate e1 h1
    have hr2 := inv.log_rate e2 h2
    rw [hkey] at hr1
    have hrr : e1.1 = e2.1 := by
      have := hr1.symm.trans hr2
      injection this with hr
    rcases inv.log_ka e1 h1 with hk | ha
    · have l1 := inv.log_k e1 h1 hk
      have l2 := inv.log_k e2 h2 (hrr ▸ hk)
      rw [hkey] at l1
      have := l1.symm.trans l2
      injection this with hv
    · have l1 := inv.log_a e1 h1 ha
      have l2 := inv.log_a e2 h2 (hrr ▸ ha)
      rw [hkey] at l1
      have := l1.symm.trans l2
      injection this with hv
  · intro e he
    exact ⟨inv.log_k e he, inv.log_a e he⟩

theorem C5_fanout_idempotent_witness :
    (exLog2.getD 0 logDflt).2.2 = (exLog2.getD 1 logDflt).2.2 :=
  (C5_fanout_idempotent exTpls exPatch2 exZ2 exUdos2 exLog2 rfl).1
    (exLog2.getD 0 logDflt) (by decide) (exLog2.getD 1 logDflt) (by decide) (by decide)

/-- C10: a cable whose two ports agree on a rate character other than k
or a makes the pass raise ValueError at that cable (the step returns the
error and no state, so nothing is allocated for it), and in any completed
pass every trace entry carries rate k or a (the rate its key reads from
the final Udo dict), and the key lists of the two rate-space maps are
exactly the first occurrences of the k-rated and a-rated traced keys. -/
theorem C10_unknown_rate :
    (∀ (z : ZakSpace) (udos : List (Nat × Udo)) (log : ZakLog) (c : Cable)
       (uf ut : Udo) (r : Char),
       dictLookup udos c.module_from = some uf →
       dictLookup udos c.module_to = some ut →
       uf.out_types.get? c.jack_from = some r →
       ut.in_types.get? c.jack_to = some r →
       r ≠ 'k' → r ≠ 'a' →
       connectStep ((z, udos), log) c = .error .valueError) ∧
    (∀ (tpls : Nat → List String) (p : Patch) (z : ZakSpace)
       (udos : List (Nat × Udo)) (log : ZakLog),
       connect_patch tpls p = .ok (z, udos, log) →
       (∀ e ∈ log, e.1 = 'k' ∨ e.1 = 'a') ∧
       (∀ e ∈ log, rateOf udos e.2.1 = some e.1) ∧
       z.zakk.map Prod.fst = firstSeen (logKeys 'k' log) ∧
       z.zaka.map Prod.fst = firstSeen (logKeys 'a' log)) := by
  constructor
  · intro z udos log c uf ut r hf ht hro hri hk ha
    have hzcd : zak_connect_direct c z udos = .error .valueError := by
      unfold zak_connect_direct
      simp only [hf, hro]
      rw [if_pos ⟨hk, ha⟩]
    unfold connectStep
    simp only [hf, ht, hro, hri, hzcd, eq_self_iff_true, if_true]
  · intro tpls p z udos log h
    have inv := connect_patch_inv h
    exact ⟨inv.log_ka, inv.log_rate, inv.kkeys, inv.akeys⟩

theorem C10_unknown_rate_witness :
    connectStep ((ZakSpace.init, exUdosY), ([] : ZakLog)) cabEF = .error .valueError :=
  C10_unknown_rate.1 ZakSpace.init exUdosY [] cabEF ufEY utFY 'x'
    rfl rfl rfl rfl (by decide) (by decide)

/-- C6: with the allocation pass positioned at a cable (all earlier cables
already processed), if the cable's source-outlet and destination-inlet
rate characters differ the whole pass returns NotImplementedError, and if
they agree the step never returns NotImplementedError (its only failures
are KeyError, IndexError or ValueError). -/
theorem C6_rate_conversion (tpls : Nat → List String) (p : Patch)
    (pre post : List Cable) (c : Cable) (udos0 : List (Nat × Udo))
    (z : ZakSpace) (udos : List (Nat × Udo)) (log : ZakLog) (uf ut : Udo)
    (ro ri : Char)
    (hc : p.cables = pre ++ c :: post)
    (hb : buildUdos tpls p = .ok udos0)
    (hpre : List.foldlM connectStep ((ZakSpace.init, udos0), ([] : ZakLog)) pre
      = .ok ((z, udos), log))
    (hf : dictLookup udos c.module_from = some uf)
    (ht : dictLookup udos c.module_to = some ut)
    (hro : uf.out_types.get? c.jack_from = some ro)
    (hri : ut.in_types.get? c.jack_to = some ri) :
    (ro ≠ ri → connect_patch tpls p = .error .notImplementedError) ∧
    (ro = ri → connectStep ((z, udos), log) c ≠ .error .notImplementedError) := by
  constructor
  · intro hne
    have hstep : connectStep ((z, udos), log) c = .error .notImplementedError := by
      unfold connectStep
      simp only [hf, ht, hro, hri]
      rw [if_neg hne]
    have hall : List.foldlM connectStep ((ZakSpace.init, udos0), ([] : ZakLog)) p.cables
        = .error .notImplementedError := by
      rw [hc, List.foldlM_append, hpre]
      show List.foldlM connectStep ((z, udos), log) (c :: post)
        = .error .notImplementedError
      rw [List.foldlM_cons, hstep]
      rfl
    unfold connect_patch
    simp only [hb, hall]
  · intro heq hcon
    unfold connectStep at hcon
    simp only [hf, ht, hro, hri] at hcon
    rw [if_pos heq] at hcon
    cases hz : zak_connect_direct c z udos with
    | error e =>
      simp only [hz] at hcon
      injection hcon with he
      exact zak_connect_direct_ne_notimpl c z udos (by rw [hz, he])
    | ok res =>
      simp only [hz] at hcon
      exact Except.noConfusion hcon

theorem C6_rate_conversion_witness :
    connect_patch exTpls exPatchX = .error .notImplementedError :=
  (C6_rate_conversion exTpls exPatchX [] [] cabAD exUdosX ZakSpace.init exUdosX []
      ufAX utDX 'a' 'k' rfl rfl rfl rfl rfl rfl rfl).1 (by decide)

/-- The scanning loop of the variant chooser returns 1 exactly when some
entry of the rate dict differs from variant 0's declared rate at its
position and matches variant 1's there, and returns 0 otherwise, provided
every entry's position is within both declared rate strings. -/
theorem variantScan_spec (v0 v1 : List Char) :
    ∀ rs : List (Nat × Char),
      (∀ e ∈ rs, e.1 < v0.length ∧ e.1 < v1.length) →
      ((variantScan v0 v1 rs = .ok 1 ↔
         ∃ e ∈ rs, ∃ c0 c1, v0.get? e.1 = some c0 ∧ v1.get? e.1 = some c1 ∧
           c0 ≠ e.2 ∧ c1 = e.2) ∧
       (variantScan v0 v1 rs = .ok 0 ∨ variantScan v0 v1 rs = .ok 1)) := by
  intro rs
  induction rs with
  | nil =>
    intro _
    refine ⟨⟨fun h => ?_, fun h => ?_⟩, Or.inl rfl⟩
    · rw [show variantScan v0 v1 [] = .ok 0 from rfl] at h
      injection h with h
      exact absurd h (by decide)
    · obtain ⟨e, he, _⟩ := h
      exact absurd he (List.not_mem_nil e)
  | cons ir rest ih =>
    intro hb
    obtain ⟨i, r⟩ := ir
    obtain ⟨hi0, hi1⟩ := hb (i, r) (List.mem_cons_self _ _)
    obtain ⟨c0v, hc0⟩ : ∃ x, v0.get? i = some x := ⟨_, List.get?_eq_get hi0⟩
    obtain ⟨c1v, hc1⟩ : ∃ x, v1.get? i = some x := ⟨_, List.get?_eq_get hi1⟩
    have hrest := ih (fun e he => hb e (List.mem_cons_of_mem _ he))
    by_cases h0 : c0v = r
    · have hred : variantScan v0 v1 ((i, r) :: rest) = variantScan v0 v1 rest := by
        simp only [variantScan, hc0]
        rw [if_neg (not_not_intro h0)]
      refine ⟨?_, ?_⟩
      · rw [hred, hrest.1]
        constructor
        · rintro ⟨e, he, hex⟩
          exact ⟨e, List.mem_cons_of_mem _ he, hex⟩
        · rintro ⟨e, he, c0, c1, he0, he1, hne, heq⟩
          rcases List.mem_cons.mp he with rfl | hmem
          · rw [hc0] at he0
            injection he0 with he0
            exact absurd (he0.symm.trans h0) hne
          · exact ⟨e, hmem, c0, c1, he0, he1, hne, heq⟩
      · rw [hred]
        exact hrest.2
    · by_cases h1 : c1v = r
      · have hred : variantScan v0 v1 ((i, r) :: rest) = .ok 1 := by
          simp only [variantScan, hc0, hc1]
          rw [if_pos h0, if_pos h1]
        refine ⟨?_, Or.inr hred⟩
        rw [hred]
        constructor
        · intro _
          exact ⟨(i, r), List.mem_cons_self _ _, c0v, c1v, hc0, hc1, h0, h1⟩
        · intro _
          rfl
      · have hred : variantScan v0 v1 ((i, r) :: rest) = variantScan v0 v1 rest := by
          simp only [variantScan, hc0, hc1]
          rw [if_pos h0, if_neg h1]
        refine ⟨?_, ?_⟩
        · rw [hred, hrest.1]
          constructor
          · rintro ⟨e, he, hex⟩
            exact ⟨e, List.mem_cons_of_mem _ he, hex⟩
          · rintro ⟨e, he, c0, c1, he0, he1, hne, heq⟩
            rcases List.mem_cons.mp he with rfl | hmem
            · rw [hc1] at he1
              injection he1 with he1
              exact absurd (he1.trans heq) h1
            · exact ⟨e, hmem, c0, c1, he0, he1, hne, heq⟩
        · rw [hred]
          exact hrest.2

theorem choose_eq_zero_of_short {tpl : UdoTemplate} (p : Patch) (mod : Module)
    (h : tpl.args.length < 2) : choose_udo_variant tpl p mod = .ok 0 := by
  unfold choose_udo_variant
  cases p.find_all_incoming_cables mod.location mod.id with
  | none => rfl
  | some cs =>
    show (if tpl.args.length < 2 then (Except.ok 0 : Except Err Nat) else _) = Except.ok 0
    rw [if_pos h]

/-- C4: variant selection of a single-variant template is constantly 0;
with two declared variants it selects 1 exactly when some connected inlet's
actual rate character differs from variant 0's declared rate character at
that inlet position and equals variant 1's, and selects 0 otherwise
(positions assumed within both declared rate strings). -/
theorem C4_variant_selection (tpl : UdoTemplate) (p : Patch) (mod : Module) :
    (tpl.args.length = 1 → choose_udo_variant tpl p mod = .ok 0) ∧
    (∀ a0 a1 v0 v1,
      tpl.args = [a0, a1] →
      a0.get? 1 = some v0 →
      a1.get? 1 = some v1 →
      (∀ e ∈ csRates ((p.find_all_incoming_cables mod.location mod.id).getD []),
        e.1 < v0.data.length ∧ e.1 < v1.data.length) →
      ((choose_udo_variant tpl p mod = .ok 1 ↔
        ∃ e ∈ csRates ((p.find_all_incoming_cables mod.location mod.id).getD []),
          ∃ c0 c1, v0.data.get? e.1 = some c0 ∧ v1.data.get? e.1 = some c1 ∧
            c0 ≠ e.2 ∧ c1 = e.2) ∧
       (choose_udo_variant tpl p mod = .ok 0 ∨
        choose_udo_variant tpl p mod = .ok 1))) := by
  constructor
  · intro hlen
    exact choose_eq_zero_of_short p mod (by omega)
  · intro a0 a1 v0 v1 hargs h0 h1 hbound
    cases hcs : p.find_all_incoming_cables mod.location mod.id with
    | none =>
      have hch : choose_udo_variant tpl p mod = .ok 0 := by
        simp only [choose_udo_variant, hcs]
      refine ⟨⟨fun hx => ?_, fun hx => ?_⟩, Or.inl hch⟩
      · rw [hch] at hx
        injection hx with hx
        exact absurd hx (by decide)
      · obtain ⟨e, he, _⟩ := hx
        have he' : e ∈ csRates [] := he
        simp only [csRates, List.foldl_nil] at he'
        exact absurd he' (List.not_mem_nil e)
    | some cs =>
      rw [hcs] at hbound
      simp only [Option.getD_some] at hbound
      have hch : choose_udo_variant tpl p mod
          = variantScan v0.data v1.data (csRates cs) := by
        simp only [choose_udo_variant, hcs, hargs]
        rw [if_neg (by rw [List.length_cons, List.length_cons, List.length_nil]; omega)]
        simp only [List.get?_cons_zero, List.get?_cons_succ, h0, h1]
      rw [hch]
      simp only [Option.getD_some]
      exact variantScan_spec v0.data v1.data (csRates cs) hbound

theorem C4_variant_selection_witness :
    choose_udo_variant tplW exPatchW modW = .ok 1 :=
  (((C4_variant_selection tplW exPatchW modW).2 ["", "k", ""] ["", "a", ""] "k" "a"
      rfl rfl rfl (by decide)).1).mpr
    ⟨(0, 'a'), by decide, 'k', 'a', rfl, rfl, by decide, rfl⟩

/-- C7: when the declared parameter string of the chosen variant disagrees
in length with the module's actual value list, parameter resolution does
not fail: it returns the .ok list of num_params sentinel values, every one
of which is -1. -/
theorem C7_param_mismatch (u : Udo) (tpl_param_def : String)
    (hd : (u.tpl.args.get? u.udo_variant).bind (fun a => a.get? 0) = some tpl_param_def)
    (hm : tpl_param_def.data.length ≠
      (u.patch.find_mod_params u.mod.location u.mod.id).values.length) :
    u.get_params = .ok (List.replicate
      (u.patch.find_mod_params u.mod.location u.mod.id).num_params (-1)) ∧
    ∀ x ∈ List.replicate
      (u.patch.find_mod_params u.mod.location u.mod.id).num_params (-1 : Int), x = -1 := by
  constructor
  · unfold Udo.get_params
    simp only [hd]
    rw [if_pos hm]
  · intro x hx
    exact List.eq_of_mem_replicate hx

theorem C7_param_mismatch_witness : uW.get_params = .ok [-1] :=
  (C7_param_mismatch uW "xy" rfl (by decide)).1

/-- A template whose parsed headers fail validation comes back with all
three annotation lists empty. -/
theorem parse_headers_invalid {lines : List String}
    (h : validate_headers
        ((enumFrom 0 lines).foldl parseHeadersStep ([], [], [])).1
        ((enumFrom 0 lines).foldl parseHeadersStep ([], [], [])).2.1
        ((enumFrom 0 lines).foldl parseHeadersStep ([], [], [])).2.2 = false) :
    parse_headers lines = ([], [], []) := by
  simp only [parse_headers]
  rw [if_neg (by rw [h]; exact Bool.false_ne_true)]

/-- C8: whenever the validation of a module's template headers fails (no
args annotation at all, or some args annotation without exactly three
components), the template carries empty annotation lists and constructing
an opcode instance from it fails with ValueError instead of producing an
instance with an empty opcode signature. -/
theorem C8_invalid_template (tpls : Nat → List String) (p : Patch) (mod : Module)
    (h : validate_headers
        ((enumFrom 0 ((tpls mod.type).map pyStrip)).foldl parseHeadersStep ([], [], [])).1
        ((enumFrom 0 ((tpls mod.type).map pyStrip)).foldl parseHeadersStep ([], [], [])).2.1
        ((enumFrom 0 ((tpls mod.type).map pyStrip)).foldl parseHeadersStep ([], [], [])).2.2
        = false) :
    (UdoTemplate.ofLines mod.type mod.type_name (tpls mod.type)).args = [] ∧
    Udo.init tpls p mod = .error .valueError := by
  have hargs : (UdoTemplate.ofLines mod.type mod.type_name (tpls mod.type)).args = [] := by
    simp only [UdoTemplate.ofLines]
    rw [parse_headers_invalid h]
  refine ⟨hargs, ?_⟩
  have hch : choose_udo_variant (UdoTemplate.ofLines mod.type mod.type_name (tpls mod.type))
      p mod = .ok 0 :=
    choose_eq_zero_of_short p mod (by rw [hargs]; decide)
  have hh : udo_header (UdoTemplate.ofLines mod.type mod.type_name (tpls mod.type)) 0
      = .error .valueError := by
    unfold udo_header
    rw [if_pos (by rw [hargs]; rfl)]
  unfold Udo.init
  simp only [hch, hh]

/-- Witness for C8 on both validation-failure modes: Q's template has no
args annotation at all, R's has an args annotation with only two
components. -/
theorem C8_invalid_template_witness :
    Udo.init exTpls exPatch8 modQ = .error .valueError ∧
    Udo.init exTplsR exPatchR modR = .error .valueError :=
  ⟨(C8_invalid_template exTpls exPatch8 modQ (by decide)).2,
   (C8_invalid_template exTplsR exPatchR modR (by decide)).2⟩

theorem udoDefsDict_keys_nodup_aux :
    ∀ (us : List Udo) (d : List (String × String)),
      (d.map Prod.fst).Nodup →
      ((us.foldl (fun d u => dictInsert d u.get_name u.get_src) d).map Prod.fst).Nodup := by
  intro us
  induction us with
  | nil =>
    intro d h
    exact h
  | cons u rest ih =>
    intro d h
    rw [List.foldl_cons]
    apply ih
    rw [dictInsert_keys]
    by_cases hm : u.get_name ∈ d.map Prod.fst
    · rw [if_pos hm]
      exact h
    · rw [if_neg hm]
      simp [List.nodup_append, h, hm]

theorem udoDefsDict_keys_mem_aux :
    ∀ (us : List Udo) (d : List (String × String)) (k : String),
      k ∈ (us.foldl (fun d u => dictInsert d u.get_name u.get_src) d).map Prod.fst ↔
        k ∈ d.map Prod.fst ∨ k ∈ us.map Udo.get_name := by
  intro us
  induction us with
  | nil =>
    intro d k
    simp
  | cons u rest ih =>
    intro d k
    rw [List.foldl_cons, ih]
    have hk : k ∈ (dictInsert d u.get_name u.get_src).map Prod.fst ↔
        k ∈ d.map Prod.fst ∨ k = u.get_name := by
      rw [dictInsert_keys]
      by_cases hm : u.get_name ∈ d.map Prod.fst
      · rw [if_pos hm]
        constructor
        · exact Or.inl
        · rintro (h | rfl)
          · exact h
          · exact hm
      · rw [if_neg hm]
        simp [List.mem_append]
    rw [hk, List.map_cons, List.mem_cons]
    tauto

/-- C9: the opcode-definition block renders one definition per distinct
instance name: the emitted name list is sorted lexicographically, has no
duplicates, contains exactly the names of the instances, and the block is
the blank-line join of the definitions looked up under those names. -/
theorem C9_udo_defs (udos : List Udo) :
    List.Sorted (fun a b : String => a ≤ b) (udoDefsNames udos) ∧
    (udoDefsNames udos).Nodup ∧
    (∀ n, n ∈ udoDefsNames udos ↔ n ∈ udos.map Udo.get_name) ∧
    udo_defs udos = joinWith "\n\n" ((udoDefsNames udos).map
      (fun n => preprocess_csd_code ((dictLookup (udoDefsDict udos) n).getD ""))) ++ "\n" := by
  refine ⟨?_, ?_, ?_, rfl⟩
  · exact List.sorted_insertionSort _ _
  · have hkeys : ((udoDefsDict udos).map Prod.fst).Nodup :=
      udoDefsDict_keys_nodup_aux udos [] (by simp)
    exact ((List.perm_insertionSort _ _).nodup_iff).mpr hkeys
  · intro n
    rw [udoDefsNames, List.mem_insertionSort]
    have hmem := udoDefsDict_keys_mem_aux udos [] n
    simp only [List.map_nil, List.not_mem_nil, false_or] at hmem
    exact hmem

theorem C9_udo_defs_witness :
    List.Sorted (fun a b : String => a ≤ b) (udoDefsNames exNameUdos) :=
  (C9_udo_defs exNameUdos).1

end Pch2Csd





